import Mathlib

/-!
Verification of the `net_syslog` event pipeline.

A shallow embedding of the core pipeline of `net_syslog.py`:

* `classify` embeds the line grammar `REGEX` (a backtracking matcher with
  Python's leftmost-greedy semantics, specialised to the fixed pattern
  `^\S+\s+\S+\s+(?P<level>\w+.\w+)\s+.+\s+(?P<code>%\w+-\d-\w+):\s+(?P<message>.+)`;
  the character classes are the ASCII fragments of Python's `\s`, `\w`, `\d`, `.`).
* `parseLines` embeds the aggregation loop of `parse_log` (a Python dict is an
  insertion-ordered association list; the dict values `[count]` and
  `[count, level, message]` are the two constructors of `EntryVal`).
* `compare_with_db` embeds the novelty pass.  The history store is a key-value
  map `(device, code) -> timestamp`; timestamps are `Nat`, ordered as the
  consistently formatted SQLite datetime strings of the source are by the
  source's lexical comparison `str(week_ago) > check_result[0]`, and the value
  written by `INSERT OR REPLACE ... datetime('now','localtime')` is the run's
  `now`.  Entries are processed in insertion order; when the attention branch
  hits a `[count]` value, the `IndexError` handler renames the dict key inside
  `for code in result:`, which under CPython (3.8 and later) makes the next
  iteration step raise `RuntimeError` (dictionary keys changed during
  iteration).  The escaping exception makes the `with sqlite3.connect(...)`
  context manager roll back every insert of the pass, and nothing catches it
  further up, so the run aborts.
* `exceptionRun` embeds `exception` together with the possible outcomes of
  loading the `EXCEPTIONS` file (missing file, unparsable YAML, a list of
  codes, or a non-container scalar whose membership test raises `TypeError`).
* `format_log` embeds the per-device report loop; the external HTML template
  and `tabulate` renderer (out of scope collaborators) are abstracted into the
  `Chunk` values a device contributes, rows being sorted by
  `column.sort(reverse=True)` on `[count, level, code, message]` tuples.
-/

set_option maxHeartbeats 1000000

/-! ## Character classes of the regular expression -/

/-- Python `\s` restricted to ASCII. -/
def pySpace (c : Char) : Bool :=
  c == ' ' || c == '\t' || c == '\n' || c == '\r' || c == '\x0b' || c == '\x0c'

/-- Python `\w` restricted to ASCII. -/
def pyWord (c : Char) : Bool :=
  c.isAlphanum || c == '_'

/-- Python `.` without `DOTALL`: any character except a newline. -/
def pyDot (c : Char) : Bool :=
  c != '\n'

/-! ## The backtracking matcher for `REGEX` -/

/-- Consume the maximal non-empty run of characters satisfying `p`
(the deterministic reading of a greedy `p+` whose continuation cannot
start with a `p`-character). -/
def eatPlusRun (p : Char → Bool) (s : List Char) : Option (List Char × List Char) :=
  let run := s.takeWhile p
  if run.isEmpty then none else some (run, s.dropWhile p)

/-- All candidate splits for a greedy `p+`, longest first, exactly the
order in which Python's engine backtracks. -/
def plusSplits (p : Char → Bool) (s : List Char) : List (List Char × List Char) :=
  let n := (s.takeWhile p).length
  (List.range n).map fun i => (s.take (n - i), s.drop (n - i))

/-- Match `%\w+-\d-\w+` at the head of `s`; both inner `\w+` are followed by a
non-word character in the pattern, hence deterministic maximal runs. -/
def matchCode : List Char → Option (List Char × List Char)
  | '%' :: s1 =>
    match eatPlusRun pyWord s1 with
    | some (w1, '-' :: d :: '-' :: s3) =>
      if d.isDigit then
        match eatPlusRun pyWord s3 with
        | some (w2, s4) => some ('%' :: w1 ++ '-' :: d :: '-' :: w2, s4)
        | none => none
      else none
    | _ => none
  | _ => none

/-- Match `:\s+(?P<message>.+)` at the head of `s`, returning the message. -/
def matchTail : List Char → Option (List Char)
  | ':' :: s1 =>
    (plusSplits pySpace s1).findSome? fun sp =>
      let msg := sp.2.takeWhile pyDot
      if msg.isEmpty then none else some msg
  | _ => none

/-- Match `.+\s+(?P<code>%\w+-\d-\w+):\s+(?P<message>.+)` at the head of `s4`,
with the level group already assembled from `w1`, `c`, `w2`.  Returns
`(level, code, message)`. -/
def tryTail (w1 : List Char) (c : Char) (w2 : List Char) (s4 : List Char) :
    Option (List Char × List Char × List Char) :=
  (plusSplits pyDot s4).findSome? fun gap =>
    match eatPlusRun pySpace gap.2 with
    | some (_, s6) =>
      match matchCode s6 with
      | some (code, s7) =>
        match matchTail s7 with
        | some msg => some (w1 ++ c :: w2, code, msg)
        | none => none
      | none => none
    | none => none

/-- Given a candidate first word run `w1` of the level group, match
`.\w+\s+` and then the rest of the pattern. -/
def tryLevel (w1 : List Char) (s1 : List Char) :
    Option (List Char × List Char × List Char) :=
  match s1 with
  | [] => none
  | c :: s2 =>
    if pyDot c then
      match eatPlusRun pyWord s2 with
      | some (w2, s3) =>
        (plusSplits pySpace s3).findSome? fun sp => tryTail w1 c w2 sp.2
      | none => none
    else none

/-- Match `(?P<level>\w+.\w+)\s+.+\s+(?P<code>...):\s+(?P<message>.+)` at the
head of `s`. -/
def matchMiddle (s : List Char) : Option (List Char × List Char × List Char) :=
  (plusSplits pyWord s).findSome? fun ws => tryLevel ws.1 ws.2

/-- Match the deterministic anchor `^\S+\s+\S+\s+` (each `\S+`/`\s+` is
followed by the complementary class, hence a forced maximal run). -/
def dropAnchor (s : List Char) : Option (List Char) :=
  match eatPlusRun (fun c => !pySpace c) s with
  | none => none
  | some (_, s1) =>
    match eatPlusRun pySpace s1 with
    | none => none
    | some (_, s2) =>
      match eatPlusRun (fun c => !pySpace c) s2 with
      | none => none
      | some (_, s3) =>
        match eatPlusRun pySpace s3 with
        | none => none
        | some (_, s4) => some s4

/-- Model of `REGEX.search(line)`: the pattern is anchored with `^` and the input is a
single line, so only a match at position 0 is possible.
Returns `(level, code, message)`. -/
def reSearch (line : List Char) : Option (List Char × List Char × List Char) :=
  match dropAnchor line with
  | some s => matchMiddle s
  | none => none

/-- The named groups of a successful match of `REGEX`. -/
structure LineMatch where
  code : String
  level : String
  message : String
deriving DecidableEq

/-- Classify one raw line: the named groups on a match, `none` otherwise. -/
def classify (line : String) : Option LineMatch :=
  match reSearch line.data with
  | some (lvl, cd, msg) => some ⟨cd.asString, lvl.asString, msg.asString⟩
  | none => none

/-! ## Aggregation (`parse_log`'s loop over the file) -/

/-- A value of the `result` dict: `[count, level, message]` for a coded event,
`[count]` for an unparsed line. -/
inductive EntryVal where
  | coded (count : Nat) (level message : String)
  | raw (count : Nat)
deriving DecidableEq

/-- The increment `result[key][0] += 1`. -/
def bump : EntryVal → EntryVal
  | .coded n l m => .coded (n + 1) l m
  | .raw n => .raw (n + 1)

/-- Increment the count stored under `key`, leaving position and the other
fields untouched. -/
def bumpCount (result : List (String × EntryVal)) (key : String) :
    List (String × EntryVal) :=
  result.map fun e => if e.1 = key then (e.1, bump e.2) else e

/-- The shared dict step of both branches of the loop body:
`if key in result: result[key][0] += 1 else: result[key] = value`. -/
def dictAdd (result : List (String × EntryVal)) (key : String) (v1 : EntryVal) :
    List (String × EntryVal) :=
  if (result.lookup key).isSome then bumpCount result key
  else result ++ [(key, v1)]

/-- One iteration of `parse_log`'s loop body on `line`. -/
def addLine (result : List (String × EntryVal)) (line : String) :
    List (String × EntryVal) :=
  match classify line with
  | some m => dictAdd result m.code (.coded 1 m.level m.message)
  | none => dictAdd result line (.raw 1)

/-- The aggregation of a whole file into the `result` dict. -/
def parseLines (lines : List String) : List (String × EntryVal) :=
  lines.foldl addLine []

/-- The grouping identity of a line: its code if it matches, the verbatim
line otherwise. -/
def lineKey (line : String) : String :=
  match classify line with
  | some m => m.code
  | none => line

/-- The entry a line would create with count `n`. -/
def mkEntry (line : String) (n : Nat) : EntryVal :=
  match classify line with
  | some m => .coded n m.level m.message
  | none => .raw n

/-! ## The history store and `compare_with_db` -/

/-- The persistent store: one sqlite table per device, each row a
`(code, last_active)` pair; i.e. a map `(device, code) -> timestamp`. -/
abbrev Db := String × String → Option Nat

def dbEmpty : Db := fun _ => none

/-- The query `SELECT last_active from <device> where code = ?`. -/
def dbLookup (db : Db) (device code : String) : Option Nat :=
  db (device, code)

/-- The query `INSERT OR REPLACE into <device> values (?, datetime(..))`. -/
def dbRecord (db : Db) (device code : String) (now : Nat) : Db :=
  fun p => if p = (device, code) then some now else db p

/-- The attention annotation: append the marker to the level
(`result[code][1] += " !!!ATTENTION!!!"`); when the value has no level field
this raises `IndexError` and the key is renamed instead
(`result["!!!ATTENTION!!! " + code] = result.pop(code)`). -/
def markAttention (code : String) (v : EntryVal) : String × EntryVal :=
  match v with
  | .coded n lvl msg => (code, .coded n (lvl ++ " !!!ATTENTION!!!") msg)
  | .raw n => ("!!!ATTENTION!!! " ++ code, .raw n)

inductive PyErr where
  | fileNotFound
  | yamlError
  | runtimeError
deriving DecidableEq

/-- The loop of `compare_with_db` over the entries of `result`, with CPython
(3.8 and later) iteration semantics: each key is looked up, the stored
timestamp is unconditionally refreshed, and the attention branch either
appends the marker to the level (`result[code][1] += " !!!ATTENTION!!!"`) or,
on a `[count]` value, raises `IndexError`, whose handler renames the dict key
(`result["!!!ATTENTION!!! " + code] = result.pop(code)`) — a key mutation
inside `for code in result:` that makes the very next iteration step raise
`RuntimeError` (dictionary keys changed during iteration), abandoning the
loop.  Its pending inserts are discarded by the caller's rollback, so the
error case carries no store. -/
def compareLoop (device : String) (week_ago now : Nat) :
    List (String × EntryVal) → Db → Except PyErr (List (String × EntryVal) × Db)
  | [], db => .ok ([], db)
  | (code, v) :: rest, db =>
    match dbLookup db device code with
    | some prev =>
      if week_ago > prev then
        match v with
        | .coded n lvl msg =>
          (compareLoop device week_ago now rest (dbRecord db device code now)).map
            fun p => ((code, EntryVal.coded n (lvl ++ " !!!ATTENTION!!!") msg) :: p.1, p.2)
        | .raw _ => .error .runtimeError
      else
        (compareLoop device week_ago now rest (dbRecord db device code now)).map
          fun p => ((code, v) :: p.1, p.2)
    | none =>
      match v with
      | .coded n lvl msg =>
        (compareLoop device week_ago now rest (dbRecord db device code now)).map
          fun p => ((code, EntryVal.coded n (lvl ++ " !!!ATTENTION!!!") msg) :: p.1, p.2)
      | .raw _ => .error .runtimeError

/-- Model of `compare_with_db`: `now = datetime.datetime.today()` and
`week_ago = now - datetime.timedelta(days=DAYS_FOR_CODE)`.  The
`with sqlite3.connect(db_name)` context manager commits every
`INSERT OR REPLACE` of a completed pass, and rolls every one of them back
when the loop's `RuntimeError` escapes: the error case returns the store
unchanged and the error propagates. -/
def compare_with_db (device : String) (now DAYS_FOR_CODE : Nat)
    (result : List (String × EntryVal)) (db : Db) :
    Except PyErr (List (String × EntryVal)) × Db :=
  match compareLoop device (now - DAYS_FOR_CODE) now result db with
  | .ok (res, db1) => (.ok res, db1)
  | .error e => (.error e, db)

/-- The per-entry annotation decided against a fixed store `db`. -/
def annotateEntry (device : String) (week_ago : Nat) (db : Db)
    (e : String × EntryVal) : String × EntryVal :=
  match dbLookup db device e.1 with
  | some prev => if week_ago > prev then markAttention e.1 e.2 else e
  | none => markAttention e.1 e.2

/-! ## The exception filter -/

/-- What `yaml.safe_load` of the exceptions file can produce: a container of
codes, or a scalar on which `in` raises `TypeError`. -/
inductive YamlVal where
  | strings (codes : List String)
  | scalar
deriving DecidableEq

/-- The exceptions source: the file may be missing (`open` raises
`FileNotFoundError`), unparsable (`yaml.safe_load` raises), or loaded. -/
inductive ExcSource where
  | missing
  | unparsable
  | value (v : YamlVal)
deriving DecidableEq

/-- The deletion loop of `exception` over a snapshot of the keys. -/
def exceptionApply (exc : List String) (result : List (String × EntryVal)) :
    List (String × EntryVal) :=
  result.filter fun e => !(exc.contains e.1)

/-- Model of `exception(result)` including the load of the `EXCEPTIONS` file: a missing
file raises `FileNotFoundError`, an unparsable one `yaml.YAMLError`; a scalar
makes every `code in exc` raise `TypeError`, which the loop catches and
ignores. -/
def exceptionRun (src : ExcSource) (result : List (String × EntryVal)) :
    Except PyErr (List (String × EntryVal)) :=
  match src with
  | .missing => .error .fileNotFound
  | .unparsable => .error .yamlError
  | .value (.strings exc) => .ok (exceptionApply exc result)
  | .value .scalar => .ok result

/-! ## `parse_log` and the per-device report loop of `format_log` -/

/-- The log file source: `open(temp)` either yields the lines or raises
`FileNotFoundError`. -/
abbrev Fs := String → Option (List String)

/-- Model of `parse_log(device, temp)` together with the store it leaves
behind.  A `RuntimeError` escaping `compare_with_db` propagates with the
store rolled back, before `exception` ever opens its file; on a completed
pass the commits survive even when the exception load then fails. -/
def parse_log (fs : Fs) (excSrc : ExcSource) (db : Db) (device temp : String)
    (now W : Nat) : Except PyErr (List (String × EntryVal)) × Db :=
  match fs temp with
  | none => (.error .fileNotFound, db)
  | some lines =>
    match compare_with_db device now W (parseLines lines) db with
    | (.error e, db1) => (.error e, db1)
    | (.ok compared, db1) =>
      match exceptionRun excSrc compared with
      | .error e => (.error e, db1)
      | .ok filtered => (.ok filtered, db1)

/-- A report row `[numb, level, code, message]`. -/
abbrev Row := Nat × String × String × String

/-- The tuple ordering Python uses to compare two rows: lexicographic,
count first, then level, then code, then message. -/
def rowToLex (r : Row) : Lex (Nat × Lex (String × Lex (String × String))) :=
  toLex (r.1, toLex (r.2.1, toLex (r.2.2.1, r.2.2.2)))

/-- Row `a` sorts no later than `b` under `column.sort(reverse=True)`. -/
def rowGe (a b : Row) : Prop := rowToLex b ≤ rowToLex a

instance : DecidableRel rowGe := fun a b =>
  inferInstanceAs (Decidable (rowToLex b ≤ rowToLex a))

instance : IsTrans Row rowGe := ⟨fun _ _ _ hab hbc => le_trans hbc hab⟩

instance : IsTotal Row rowGe :=
  ⟨fun a b => (le_total (rowToLex b) (rowToLex a)).elim Or.inl Or.inr⟩

/-- The row built from one surviving entry: `[count, level, code, message]`
for a coded value, `[count, '-', '-', identity]` otherwise. -/
def rowOf : String × EntryVal → Row
  | (code, .coded n lvl msg) => (n, lvl, code, msg)
  | (code, .raw n) => (n, "-", "-", code)

/-- Build the rows of one device and `column.sort(reverse=True)`. -/
def assembleRows (res : List (String × EntryVal)) : List Row :=
  List.insertionSort rowGe (res.map rowOf)

structure Device where
  dtype : String
  name : String
  ip : String
  path : String
deriving DecidableEq

/-- What one device contributes to the report body: either the one-line
"logfile not found" notice or its table of rows (HTML rendering is the
external renderer's business). -/
inductive Chunk where
  | unavailable (d : Device)
  | table (d : Device) (rows : List Row)
deriving DecidableEq

/-- The per-device loop of `format_log`: `FileNotFoundError` from
`parse_log` is caught and turned into the notice; any other error
(`yaml.YAMLError`, the iteration `RuntimeError`) propagates and aborts the
run. -/
def format_log (fs : Fs) (excSrc : ExcSource) (now W : Nat) :
    List Device → Db → Except PyErr (List Chunk × Db)
  | [], db => .ok ([], db)
  | d :: rest, db =>
    match parse_log fs excSrc db d.name d.path now W with
    | (.error .fileNotFound, db1) =>
      (format_log fs excSrc now W rest db1).map fun p =>
        (Chunk.unavailable d :: p.1, p.2)
    | (.error .yamlError, _) => .error .yamlError
    | (.error .runtimeError, _) => .error .runtimeError
    | (.ok res, db1) =>
      (format_log fs excSrc now W rest db1).map fun p =>
        (Chunk.table d (assembleRows res) :: p.1, p.2)

/-! ## Specification-side predicates and concrete fixtures -/

/-- Full match of the pattern `%\w+-\d-\w+` (the shape the specification
requires of every extracted code). -/
def codePat (s : List Char) : Bool :=
  match s with
  | '%' :: s1 =>
    match eatPlusRun pyWord s1 with
    | some (_, '-' :: d :: '-' :: s3) =>
      d.isDigit &&
        (match eatPlusRun pyWord s3 with
         | some (_, rest) => rest.isEmpty
         | none => false)
    | _ => false
  | _ => false

/-- A fixture device whose log file is missing in `fsNone`. -/
def dev0 : Device := ⟨"switch", "dev_one", "10.0.0.1", "p1"⟩

/-- A second fixture device. -/
def dev1 : Device := ⟨"switch", "dev_two", "10.0.0.2", "p2"⟩

/-- A file system with no files. -/
def fsNone : Fs := fun _ => none

/-- A file system where only `dev1`'s log exists and is empty. -/
def fsOnly1 : Fs := fun p => if p = "p2" then some [] else none

/-- A file system where every file is the empty log. -/
def fsEmptyLogs : Fs := fun _ => some []

/-- A file system where every log consists of one unparsable line. -/
def fsPlain : Fs := fun _ => some ["plain"]

/-- A file system where every log consists of two distinct coded lines. -/
def fsTwoCoded : Fs :=
  fun _ => some ["A B c.d x %E-3-F: msg", "A B c.d x %G-4-H: msg2"]

/-- The number of lines of a file sharing the grouping identity `k`. -/
def occKey (lines : List String) (k : String) : Nat :=
  lines.countP fun l => lineKey l == k

/-- Add `n` further occurrences to an entry's count. -/
def bumpN : EntryVal → Nat → EntryVal
  | .coded c l m, n => .coded (c + n) l m
  | .raw c, n => .raw (c + n)

/-! ## Run lemmas for the matcher -/

theorem takeWhile_eq_of_all {α : Type} {p : α → Bool} {l : List α}
    (h : ∀ x ∈ l, p x = true) : l.takeWhile p = l := by
  induction l with
  | nil => rfl
  | cons a t ih =>
    simp only [List.takeWhile_cons, h a (by simp)]
    simp [ih fun x hx => h x (by simp [hx])]

theorem dropWhile_eq_of_all {α : Type} {p : α → Bool} {l : List α}
    (h : ∀ x ∈ l, p x = true) : l.dropWhile p = [] := by
  induction l with
  | nil => rfl
  | cons a t ih =>
    simp only [List.dropWhile_cons, h a (by simp)]
    simp [ih fun x hx => h x (by simp [hx])]

theorem takeWhile_append_not {α : Type} {p : α → Bool} {l r : List α} {c : α}
    (hl : ∀ x ∈ l, p x = true) (hc : p c = false) :
    (l ++ c :: r).takeWhile p = l := by
  induction l with
  | nil => simp [List.takeWhile_cons, hc]
  | cons a t ih =>
    simp only [List.cons_append, List.takeWhile_cons, hl a (by simp)]
    simp [ih fun x hx => hl x (by simp [hx])]

theorem dropWhile_append_not {α : Type} {p : α → Bool} {l r : List α} {c : α}
    (hl : ∀ x ∈ l, p x = true) (hc : p c = false) :
    (l ++ c :: r).dropWhile p = c :: r := by
  induction l with
  | nil => simp [List.dropWhile_cons, hc]
  | cons a t ih =>
    simp only [List.cons_append, List.dropWhile_cons, hl a (by simp)]
    simp [ih fun x hx => hl x (by simp [hx])]

theorem eatPlusRun_eq_some {p : Char → Bool} {s run rest : List Char}
    (h : eatPlusRun p s = some (run, rest)) :
    run ≠ [] ∧ (∀ c ∈ run, p c = true) ∧ run = s.takeWhile p ∧ rest = s.dropWhile p := by
  unfold eatPlusRun at h
  by_cases he : (s.takeWhile p).isEmpty
  · simp [he] at h
  · simp only [he, if_false] at h
    obtain ⟨h1, h2⟩ := Prod.mk.injEq .. ▸ (Option.some.injEq .. ▸ h)
    subst h1; subst h2
    refine ⟨by simpa using he, fun c hc => List.mem_takeWhile_imp hc, rfl, rfl⟩

theorem eatPlusRun_parts {p : Char → Bool} {w : List Char} {c : Char} {r : List Char}
    (hw : ∀ x ∈ w, p x = true) (hne : w ≠ []) (hc : p c = false) :
    eatPlusRun p (w ++ c :: r) = some (w, c :: r) := by
  unfold eatPlusRun
  rw [takeWhile_append_not hw hc, dropWhile_append_not hw hc]
  simp [hne]

theorem eatPlusRun_all {p : Char → Bool} {w : List Char}
    (hw : ∀ x ∈ w, p x = true) (hne : w ≠ []) :
    eatPlusRun p w = some (w, []) := by
  unfold eatPlusRun
  rw [takeWhile_eq_of_all hw, dropWhile_eq_of_all hw]
  simp [hne]

/-- Every code emitted by `matchCode` has the shape `%\w+-\d-\w+`. -/
theorem matchCode_shape {s code rest : List Char}
    (h : matchCode s = some (code, rest)) : codePat code = true := by
  unfold matchCode at h
  split at h
  next s1 =>
    split at h
    next w1 d s3 heat =>
      split at h
      next hd =>
        split at h
        next w2 s4 heat2 =>
          obtain ⟨hne1, hall1, -, -⟩ := eatPlusRun_eq_some heat
          obtain ⟨hne2, hall2, -, -⟩ := eatPlusRun_eq_some heat2
          obtain ⟨hcode, -⟩ := Prod.mk.injEq .. ▸ (Option.some.injEq .. ▸ h)
          subst hcode
          show codePat ('%' :: w1 ++ '-' :: d :: '-' :: w2) = true
          have h1 : eatPlusRun pyWord (w1 ++ '-' :: d :: '-' :: w2)
              = some (w1, '-' :: d :: '-' :: w2) :=
            eatPlusRun_parts hall1 hne1 (by decide)
          simp only [codePat, List.cons_append, h1, eatPlusRun_all hall2 hne2]
          simp [hd]
        next => exact absurd h (by simp)
      next => exact absurd h (by simp)
    next => exact absurd h (by simp)
  next => exact absurd h (by simp)

/-- The code component of a `tryTail` result is produced by `matchCode`. -/
theorem tryTail_code {w1 : List Char} {c : Char} {w2 s4 lvl code msg : List Char}
    (h : tryTail w1 c w2 s4 = some (lvl, code, msg)) :
    ∃ s6 s7, matchCode s6 = some (code, s7) := by
  unfold tryTail at h
  obtain ⟨gap, -, hgap⟩ := List.exists_of_findSome?_eq_some h
  split at hgap
  next s6 _ =>
    split at hgap
    next code' s7 hmc =>
      split at hgap
      next msg' _ =>
        simp only [Option.some.injEq, Prod.mk.injEq] at hgap
        obtain ⟨-, hc, -⟩ := hgap
        exact ⟨s6, s7, hc ▸ hmc⟩
      next => exact absurd hgap (by simp)
    next => exact absurd hgap (by simp)
  next => exact absurd hgap (by simp)

/-- The code component of a `tryLevel` result is produced by `matchCode`. -/
theorem tryLevel_code {w1 s1 lvl code msg : List Char}
    (h : tryLevel w1 s1 = some (lvl, code, msg)) :
    ∃ s6 s7, matchCode s6 = some (code, s7) := by
  unfold tryLevel at h
  split at h
  next => exact absurd h (by simp)
  next c s2 =>
    split at h
    next =>
      split at h
      next w2 s3 _ =>
        obtain ⟨sp, -, hsp⟩ := List.exists_of_findSome?_eq_some h
        exact tryTail_code hsp
      next => exact absurd h (by simp)
    next => exact absurd h (by simp)

/-- The code component of a successful `reSearch` is produced by `matchCode`. -/
theorem reSearch_code {line lvl code msg : List Char}
    (h : reSearch line = some (lvl, code, msg)) :
    ∃ s6 s7, matchCode s6 = some (code, s7) := by
  unfold reSearch at h
  split at h
  next s _ =>
    unfold matchMiddle at h
    obtain ⟨ws, -, hws⟩ := List.exists_of_findSome?_eq_some h
    exact tryLevel_code hws
  next => exact absurd h (by simp)

/-- Every code extracted by `classify` matches the pattern `%\w+-\d-\w+`. -/
theorem classify_code_shape {line : String} {m : LineMatch}
    (h : classify line = some m) : codePat m.code.data = true := by
  unfold classify at h
  split at h
  next lvl cd msg hre =>
    simp only [Option.some.injEq] at h
    subst h
    obtain ⟨s6, s7, hmc⟩ := reSearch_code hre
    exact matchCode_shape hmc
  next => exact absurd h (by simp)

/-! ## Dictionary lemmas for the aggregation -/

theorem lookup_isSome_iff {β : Type} {l : List (String × β)} {k : String} :
    (l.lookup k).isSome = true ↔ k ∈ l.map Prod.fst := by
  induction l with
  | nil => simp [List.lookup]
  | cons e t ih =>
    obtain ⟨k', v⟩ := e
    by_cases hk : k = k'
    · subst hk; simp [List.lookup_cons]
    · have : (k == k') = false := by simp [hk]
      simp [List.lookup_cons, this, hk, ih]

theorem lookup_append {β : Type} (l r : List (String × β)) (k : String) :
    (l ++ r).lookup k = (l.lookup k).or (r.lookup k) := by
  induction l with
  | nil => simp [List.lookup]
  | cons e t ih =>
    obtain ⟨k', v⟩ := e
    by_cases hk : k = k'
    · subst hk; simp [List.lookup_cons]
    · have : (k == k') = false := by simp [hk]
      simp [List.lookup_cons, this, ih]

theorem bumpCount_keys (res : List (String × EntryVal)) (key : String) :
    (bumpCount res key).map Prod.fst = res.map Prod.fst := by
  unfold bumpCount
  rw [List.map_map]
  exact List.map_congr_left fun e _ => by by_cases h : e.1 = key <;> simp [h]

theorem bumpCount_lookup (res : List (String × EntryVal)) (key k : String) :
    (bumpCount res key).lookup k =
      if k = key then (res.lookup k).map bump else res.lookup k := by
  induction res with
  | nil => simp [bumpCount, List.lookup]
  | cons e t ih =>
    obtain ⟨k', v⟩ := e
    simp only [bumpCount] at ih ⊢
    by_cases h1 : k' = key
    · subst h1
      by_cases h2 : k = k'
      · subst h2
        simp [List.lookup_cons]
      · have hb : (k == k') = false := by simp [h2]
        simp [List.lookup_cons, hb, ih, h2]
    · by_cases h2 : k = k'
      · subst h2
        simp [List.lookup_cons, if_neg h1, h1]
      · have hb : (k == k') = false := by simp [h2]
        simp [List.lookup_cons, if_neg h1, hb, ih]

theorem dictAdd_lookup (res : List (String × EntryVal)) (key k : String)
    (v1 : EntryVal) :
    (dictAdd res key v1).lookup k =
      if key = k then
        some (match res.lookup k with | some v => bump v | none => v1)
      else res.lookup k := by
  unfold dictAdd
  by_cases hs : (res.lookup key).isSome
  · rw [if_pos hs, bumpCount_lookup]
    by_cases hk : k = key
    · subst hk
      obtain ⟨v, hv⟩ := Option.isSome_iff_exists.mp hs
      simp [hv]
    · have hk2 : ¬key = k := fun h => hk h.symm
      simp [hk, hk2]
  · rw [if_neg hs, lookup_append]
    have hnone : res.lookup key = none := Option.not_isSome_iff_eq_none.mp hs
    by_cases hk : key = k
    · subst hk
      simp [hnone, List.lookup_cons]
    · have hb : (k == key) = false := by simp [Ne.symm hk]
      simp [hk, List.lookup_cons, hb]

theorem dictAdd_keys (res : List (String × EntryVal)) (key : String)
    (v1 : EntryVal) :
    (dictAdd res key v1).map Prod.fst =
      if (res.lookup key).isSome then res.map Prod.fst
      else res.map Prod.fst ++ [key] := by
  unfold dictAdd
  by_cases hs : (res.lookup key).isSome <;> simp [hs, bumpCount_keys]

theorem dictAdd_nodup {res : List (String × EntryVal)} {key : String}
    {v1 : EntryVal} (h : (res.map Prod.fst).Nodup) :
    ((dictAdd res key v1).map Prod.fst).Nodup := by
  rw [dictAdd_keys]
  by_cases hs : (res.lookup key).isSome
  · simpa [hs] using h
  · have : key ∉ res.map Prod.fst := fun hk => hs (lookup_isSome_iff.mpr hk)
    simp [hs, List.nodup_append, h, this]

theorem addLine_lookup (res : List (String × EntryVal)) (line k : String) :
    (addLine res line).lookup k =
      if lineKey line = k then
        some (match res.lookup k with | some v => bump v | none => mkEntry line 1)
      else res.lookup k := by
  unfold addLine
  cases hc : classify line with
  | some m => rw [dictAdd_lookup]; simp [lineKey, mkEntry, hc]
  | none => rw [dictAdd_lookup]; simp [lineKey, mkEntry, hc]

theorem addLine_nodup {res : List (String × EntryVal)} {line : String}
    (h : (res.map Prod.fst).Nodup) :
    ((addLine res line).map Prod.fst).Nodup := by
  unfold addLine
  cases classify line <;> exact dictAdd_nodup h

theorem bumpN_zero (v : EntryVal) : bumpN v 0 = v := by
  cases v <;> rfl

theorem bumpN_bump (v : EntryVal) (n : Nat) : bumpN (bump v) n = bumpN v (n + 1) := by
  cases v <;> simp [bump, bumpN] <;> omega

theorem bumpN_mkEntry (l : String) (a n : Nat) :
    bumpN (mkEntry l a) n = mkEntry l (a + n) := by
  unfold mkEntry
  cases classify l <;> simp [bumpN]

/-- The aggregation loop, characterised entry-wise: starting from any
accumulator, the final binding of `k` adds the occurrence count of `k` to the
accumulator's binding, or creates the entry of the first matching line. -/
theorem parse_fold_lookup (lines : List String) :
    ∀ (acc : List (String × EntryVal)) (k : String),
      (lines.foldl addLine acc).lookup k =
        match acc.lookup k with
        | some v => some (bumpN v (occKey lines k))
        | none =>
          match lines.find? (fun l => lineKey l == k) with
          | none => none
          | some l => some (mkEntry l (occKey lines k)) := by
  induction lines with
  | nil =>
    intro acc k
    cases hacc : acc.lookup k <;> simp [occKey, bumpN_zero, hacc]
  | cons l ls ih =>
    intro acc k
    rw [List.foldl_cons, ih, addLine_lookup]
    by_cases hk : lineKey l = k
    · have hb : (lineKey l == k) = true := beq_iff_eq.mpr hk
      rw [if_pos hk]
      cases hacc : acc.lookup k with
      | some v =>
        simp [occKey, List.countP_cons, hb, bumpN_bump]
      | none =>
        simp [occKey, List.countP_cons, List.find?_cons, hb, bumpN_mkEntry,
          Nat.add_comm]
    · have hb : (lineKey l == k) = false := by simp [hk]
      rw [if_neg hk]
      cases hacc : acc.lookup k <;>
        simp [occKey, List.countP_cons, List.find?_cons, hb]

/-- The aggregation loop preserves distinctness of the dict keys. -/
theorem parse_fold_nodup (lines : List String) :
    ∀ acc : List (String × EntryVal),
      (acc.map Prod.fst).Nodup → ((lines.foldl addLine acc).map Prod.fst).Nodup := by
  induction lines with
  | nil => intro acc h; simpa using h
  | cons l ls ih => intro acc h; exact ih _ (addLine_nodup h)

/-! ## History store lemmas -/

theorem dbLookup_dbRecord_self (db : Db) (d c : String) (n : Nat) :
    dbLookup (dbRecord db d c n) d c = some n := by
  simp [dbLookup, dbRecord]

theorem dbLookup_dbRecord_ne {d' c' d c : String} (db : Db) (n : Nat)
    (h : (d', c') ≠ (d, c)) :
    dbLookup (dbRecord db d c n) d' c' = dbLookup db d' c' := by
  simp [dbLookup, dbRecord, h]

/-- Inversion of `Except.map` on a success. -/
theorem except_map_ok {α β γ : Type} {f : α → β} {x : Except γ α} {y : β}
    (h : x.map f = Except.ok y) : ∃ a, x = Except.ok a ∧ f a = y := by
  cases x with
  | ok a =>
    refine ⟨a, rfl, ?_⟩
    simpa [Except.map] using h
  | error e => simp [Except.map] at h

/-- Inversion of `Except.map` on an error. -/
theorem except_map_error {α β γ : Type} {f : α → β} {x : Except γ α} {e : γ}
    (h : x.map f = Except.error e) : x = Except.error e := by
  cases x with
  | ok a => simp [Except.map] at h
  | error e2 =>
    simp only [Except.map] at h
    injection h with he
    rw [he]

/-- Inversion of one successful step of the loop: the head entry was either
kept (found and recent) or level-marked (coded, new or stale), the rest ran
on the store with the head's key refreshed, and a raw head can only have
taken the kept branch. -/
theorem compareLoop_cons_ok {device k : String} {v : EntryVal} {week_ago now : Nat}
    {rest : List (String × EntryVal)} {db : Db}
    {out : List (String × EntryVal)} {dbf : Db}
    (h : compareLoop device week_ago now ((k, v) :: rest) db = Except.ok (out, dbf)) :
    ∃ entry out2,
      out = entry :: out2
      ∧ compareLoop device week_ago now rest (dbRecord db device k now)
          = Except.ok (out2, dbf)
      ∧ ((entry = (k, v)
            ∧ ∃ prev, dbLookup db device k = some prev ∧ ¬prev < week_ago)
         ∨ (∃ n lvl msg, v = EntryVal.coded n lvl msg
              ∧ entry = (k, EntryVal.coded n (lvl ++ " !!!ATTENTION!!!") msg)
              ∧ (dbLookup db device k = none
                 ∨ ∃ prev, dbLookup db device k = some prev ∧ prev < week_ago))) := by
  cases v with
  | coded n lvl msg =>
    simp only [compareLoop] at h
    cases hl : dbLookup db device k with
    | some prev =>
      rw [hl] at h
      simp only [] at h
      by_cases hw : week_ago > prev
      · rw [if_pos hw] at h
        obtain ⟨⟨out2, dbf2⟩, hrec, hmap⟩ := except_map_ok h
        obtain ⟨ho, hd⟩ := Prod.mk.injEq .. ▸ hmap
        exact ⟨_, out2, ho.symm, hd ▸ hrec,
          Or.inr ⟨n, lvl, msg, rfl, rfl, Or.inr ⟨prev, rfl, hw⟩⟩⟩
      · rw [if_neg hw] at h
        obtain ⟨⟨out2, dbf2⟩, hrec, hmap⟩ := except_map_ok h
        obtain ⟨ho, hd⟩ := Prod.mk.injEq .. ▸ hmap
        exact ⟨_, out2, ho.symm, hd ▸ hrec, Or.inl ⟨rfl, prev, rfl, hw⟩⟩
    | none =>
      rw [hl] at h
      simp only [] at h
      obtain ⟨⟨out2, dbf2⟩, hrec, hmap⟩ := except_map_ok h
      obtain ⟨ho, hd⟩ := Prod.mk.injEq .. ▸ hmap
      exact ⟨_, out2, ho.symm, hd ▸ hrec,
        Or.inr ⟨n, lvl, msg, rfl, rfl, Or.inl rfl⟩⟩
  | raw n =>
    simp only [compareLoop] at h
    cases hl : dbLookup db device k with
    | some prev =>
      rw [hl] at h
      simp only [] at h
      by_cases hw : week_ago > prev
      · rw [if_pos hw] at h
        exact absurd h (by simp)
      · rw [if_neg hw] at h
        obtain ⟨⟨out2, dbf2⟩, hrec, hmap⟩ := except_map_ok h
        obtain ⟨ho, hd⟩ := Prod.mk.injEq .. ▸ hmap
        exact ⟨_, out2, ho.symm, hd ▸ hrec, Or.inl ⟨rfl, prev, rfl, hw⟩⟩
    | none =>
      rw [hl] at h
      simp only [] at h
      exact absurd h (by simp)

/-- Every error the loop can produce is the iteration `RuntimeError`. -/
theorem compareLoop_error_shape {device : String} {week_ago now : Nat} :
    ∀ (result : List (String × EntryVal)) (db : Db) (e : PyErr),
      compareLoop device week_ago now result db = Except.error e →
      e = PyErr.runtimeError := by
  intro result
  induction result with
  | nil => intro db e h; simp [compareLoop] at h
  | cons ev t ih =>
    obtain ⟨k, v⟩ := ev
    intro db e h
    cases v with
    | coded n lvl msg =>
      simp only [compareLoop] at h
      cases hl : dbLookup db device k with
      | some prev =>
        rw [hl] at h
        simp only [] at h
        by_cases hw : week_ago > prev
        · rw [if_pos hw] at h
          exact ih _ e (except_map_error h)
        · rw [if_neg hw] at h
          exact ih _ e (except_map_error h)
      | none =>
        rw [hl] at h
        simp only [] at h
        exact ih _ e (except_map_error h)
    | raw n =>
      simp only [compareLoop] at h
      cases hl : dbLookup db device k with
      | some prev =>
        rw [hl] at h
        simp only [] at h
        by_cases hw : week_ago > prev
        · rw [if_pos hw] at h
          simp only [Except.error.injEq] at h
          exact h.symm
        · rw [if_neg hw] at h
          exact ih _ e (except_map_error h)
      | none =>
        rw [hl] at h
        simp only [] at h
        simp only [Except.error.injEq] at h
        exact h.symm

/-- A key already mapped to `now` keeps that value through a completed rest
of the loop: later iterations either rewrite it to `now` again or leave it
alone. -/
theorem compareLoop_keeps_now {device code : String} {now : Nat} (week_ago : Nat) :
    ∀ (rest : List (String × EntryVal)) (db : Db) (out : List (String × EntryVal))
      (dbf : Db),
      compareLoop device week_ago now rest db = Except.ok (out, dbf) →
      dbLookup db device code = some now →
      dbLookup dbf device code = some now := by
  intro rest
  induction rest with
  | nil =>
    intro db out dbf hok h
    have hd : db = dbf := by
      simp only [compareLoop, Except.ok.injEq, Prod.mk.injEq] at hok
      exact hok.2
    exact hd ▸ h
  | cons e t ih =>
    obtain ⟨k, v⟩ := e
    intro db out dbf hok h
    obtain ⟨entry, out2, -, hrec, -⟩ := compareLoop_cons_ok hok
    refine ih _ out2 dbf hrec ?_
    by_cases hk : (device, code) = (device, k)
    · rw [show code = k from (Prod.mk.injEq .. ▸ hk).2, dbLookup_dbRecord_self]
    · rwa [dbLookup_dbRecord_ne _ _ hk]

/-- Every key occurring in `result` is mapped to `now` in the store a
completed loop leaves behind. -/
theorem compareLoop_records {device : String} (week_ago now : Nat) :
    ∀ (result : List (String × EntryVal)) (db : Db) (out : List (String × EntryVal))
      (dbf : Db) (code : String),
      compareLoop device week_ago now result db = Except.ok (out, dbf) →
      code ∈ result.map Prod.fst →
      dbLookup dbf device code = some now := by
  intro result
  induction result with
  | nil => intro db out dbf code _ h; simp at h
  | cons e t ih =>
    obtain ⟨k, v⟩ := e
    intro db out dbf code hok h
    obtain ⟨entry, out2, -, hrec, -⟩ := compareLoop_cons_ok hok
    rcases (by simpa using h : code = k ∨ ∃ x, (code, x) ∈ t) with hk | ⟨x, hx⟩
    · subst hk
      exact compareLoop_keeps_now week_ago t _ out2 dbf hrec
        (dbLookup_dbRecord_self db device code now)
    · refine ih _ out2 dbf code hrec ?_
      simpa using ⟨x, hx⟩

/-- With pairwise-distinct keys a completed loop annotates each entry against
the store as it was before the call: earlier iterations only record other
keys, and no surviving raw entry was marked. -/
theorem compareLoop_ok_map {device : String} (week_ago now : Nat) :
    ∀ (result : List (String × EntryVal)) (db : Db) (out : List (String × EntryVal))
      (dbf : Db),
      (result.map Prod.fst).Nodup →
      compareLoop device week_ago now result db = Except.ok (out, dbf) →
      out = result.map (annotateEntry device week_ago db) := by
  intro result
  induction result with
  | nil =>
    intro db out dbf _ hok
    simp only [compareLoop, Except.ok.injEq, Prod.mk.injEq] at hok
    simpa using hok.1.symm
  | cons e t ih =>
    obtain ⟨k, v⟩ := e
    intro db out dbf hnd hok
    have hk : k ∉ t.map Prod.fst := (List.nodup_cons.mp (by simpa using hnd)).1
    have hnd2 : (t.map Prod.fst).Nodup := (List.nodup_cons.mp (by simpa using hnd)).2
    obtain ⟨entry, out2, ho, hrec, hcases⟩ := compareLoop_cons_ok hok
    subst ho
    have hout2 : out2 = t.map (annotateEntry device week_ago (dbRecord db device k now)) :=
      ih _ out2 dbf hnd2 hrec
    have hmap : t.map (annotateEntry device week_ago (dbRecord db device k now))
        = t.map (annotateEntry device week_ago db) := by
      refine List.map_congr_left fun e2 he2 => ?_
      have hne : (device, e2.1) ≠ (device, k) := fun hcontra =>
        hk ((Prod.mk.injEq .. ▸ hcontra).2 ▸ List.mem_map_of_mem Prod.fst he2)
      unfold annotateEntry
      rw [dbLookup_dbRecord_ne _ _ hne]
    rw [List.map_cons, hout2, hmap]
    congr 1
    rcases hcases with ⟨hent, prev, hl, hw⟩ | ⟨n, lvl, msg, hv, hent, hcond⟩
    · rw [hent]
      simp only [annotateEntry, hl]
      rw [if_neg hw]
    · subst hv
      rw [hent]
      rcases hcond with hnone | ⟨prev, hp, hlt⟩
      · simp only [annotateEntry, hnone, markAttention]
      · simp only [annotateEntry, hp]
        rw [if_pos hlt]
        simp only [markAttention]

/-- A completed loop implies every raw entry of a nodup result had a prior
record within the window: the attention branch on a raw value would have
raised. -/
theorem compareLoop_ok_no_raw_cond {device : String} (week_ago now : Nat) :
    ∀ (result : List (String × EntryVal)) (db : Db) (out : List (String × EntryVal))
      (dbf : Db) (key : String) (c : Nat),
      (result.map Prod.fst).Nodup →
      compareLoop device week_ago now result db = Except.ok (out, dbf) →
      (key, EntryVal.raw c) ∈ result →
      ¬(dbLookup db device key = none ∨
        ∃ prev, dbLookup db device key = some prev ∧ prev < week_ago) := by
  intro result
  induction result with
  | nil => intro db out dbf key c _ _ h; simp at h
  | cons e t ih =>
    obtain ⟨k, v⟩ := e
    intro db out dbf key c hnd hok hmem
    have hk : k ∉ t.map Prod.fst := (List.nodup_cons.mp (by simpa using hnd)).1
    have hnd2 : (t.map Prod.fst).Nodup := (List.nodup_cons.mp (by simpa using hnd)).2
    obtain ⟨entry, out2, -, hrec, hcases⟩ := compareLoop_cons_ok hok
    rcases List.mem_cons.mp hmem with he | ht
    · obtain ⟨hkey, hv⟩ := Prod.mk.injEq .. ▸ he
      subst hkey
      rcases hcases with ⟨-, prev, hl, hw⟩ | ⟨n, lvl, msg, hv2, -, -⟩
      · rintro (hnone | ⟨prev2, hp, hlt⟩)
        · rw [hl] at hnone
          exact Option.noConfusion hnone
        · rw [hl] at hp
          injection hp with hpe
          exact hw (hpe.symm ▸ hlt)
      · rw [hv2] at hv
        exact EntryVal.noConfusion hv
    · have hne : (device, key) ≠ (device, k) := fun hcontra =>
        hk ((Prod.mk.injEq .. ▸ hcontra).2 ▸ List.mem_map_of_mem Prod.fst ht)
      have hcond1 := ih _ out2 dbf key c hnd2 hrec ht
      rwa [dbLookup_dbRecord_ne _ _ hne] at hcond1

/-- Unpack a successful `compare_with_db`: the loop completed and the pair's
store is the loop's committed store. -/
theorem compare_with_db_ok {device : String} {now W : Nat}
    {result : List (String × EntryVal)} {db : Db}
    {out : List (String × EntryVal)}
    (h : (compare_with_db device now W result db).1 = Except.ok out) :
    ∃ dbf, compareLoop device (now - W) now result db = Except.ok (out, dbf)
      ∧ (compare_with_db device now W result db).2 = dbf := by
  unfold compare_with_db at h ⊢
  cases hc : compareLoop device (now - W) now result db with
  | ok p =>
    obtain ⟨res, dbf⟩ := p
    rw [hc] at h
    simp only [Except.ok.injEq] at h
    subst h
    exact ⟨dbf, rfl, rfl⟩
  | error e =>
    rw [hc] at h
    simp at h

/-! ## String and uniqueness helpers -/

theorem string_append_right_cancel {a b s : String} (h : a ++ s = b ++ s) :
    a = b := by
  have h2 : a.data ++ s.data = b.data ++ s.data := by
    rw [← String.data_append, ← String.data_append, h]
  exact String.ext (List.append_cancel_right h2)

theorem string_append_left_cancel {p a b : String} (h : p ++ a = p ++ b) :
    a = b := by
  have h2 : p.data ++ a.data = p.data ++ b.data := by
    rw [← String.data_append, ← String.data_append, h]
  exact String.ext (List.append_cancel_left h2)

theorem string_ne_append_mark (l : String) : l ≠ l ++ " !!!ATTENTION!!!" := by
  intro h
  have h2 := congrArg String.length h
  rw [String.length_append] at h2
  have h3 : (" !!!ATTENTION!!!" : String).length = 16 := rfl
  omega

/-- In a dict with pairwise-distinct keys, a key determines its value. -/
theorem nodup_key_unique {β : Type} :
    ∀ {l : List (String × β)} {k : String} {v v' : β},
      (l.map Prod.fst).Nodup → (k, v) ∈ l → (k, v') ∈ l → v = v' := by
  intro l
  induction l with
  | nil => intro k v v' _ h1 _; simp at h1
  | cons e t ih =>
    intro k v v' hnd h1 h2
    have hk : e.1 ∉ t.map Prod.fst := (List.nodup_cons.mp (by simpa using hnd)).1
    have hnd' : (t.map Prod.fst).Nodup := (List.nodup_cons.mp (by simpa using hnd)).2
    rcases List.mem_cons.mp h1 with he1 | ht1 <;> rcases List.mem_cons.mp h2 with he2 | ht2
    · rw [← he1] at he2
      exact ((Prod.mk.injEq .. ▸ he2).2).symm
    · cases he1
      exact absurd (List.mem_map_of_mem Prod.fst ht2) hk
    · cases he2
      exact absurd (List.mem_map_of_mem Prod.fst ht1) hk
    · exact ih hnd' ht1 ht2

/-- The two branches of the per-entry annotation, together with the exact
condition the source tests on the stored value. -/
theorem annotateEntry_branches (device : String) (week_ago : Nat) (db : Db)
    (e : String × EntryVal) :
    (annotateEntry device week_ago db e = markAttention e.1 e.2 ∧
      (dbLookup db device e.1 = none ∨
        ∃ prev, dbLookup db device e.1 = some prev ∧ prev < week_ago))
    ∨ (annotateEntry device week_ago db e = e ∧
      ¬(dbLookup db device e.1 = none ∨
        ∃ prev, dbLookup db device e.1 = some prev ∧ prev < week_ago)) := by
  cases hl : dbLookup db device e.1 with
  | none =>
    left
    refine ⟨?_, Or.inl rfl⟩
    unfold annotateEntry
    rw [hl]
  | some prev =>
    by_cases hw : prev < week_ago
    · left
      refine ⟨?_, Or.inr ⟨prev, rfl, hw⟩⟩
      unfold annotateEntry
      rw [hl]
      exact if_pos hw
    · right
      constructor
      · unfold annotateEntry
        rw [hl]
        exact if_neg hw
      · rintro (hnone | ⟨prev', hp, hlt⟩)
        · exact Option.noConfusion hnone
        · exact hw (by injection hp with h; exact h.symm ▸ hlt)

/-- C1: for every device and every aggregated coded event of a novelty pass
that produces its annotated result, the attention annotation (the
` !!!ATTENTION!!!` marker appended to the level) is present exactly when the
store had no prior record for `(device, code)` or the prior recorded
timestamp is older than `now - W`, and absent when the prior timestamp lies
within the window; the decision is read from the store as it was before this
run's overwrite. -/
theorem c1_attention_flag (device : String) (now W : Nat)
    (result : List (String × EntryVal)) (db : Db) (code : String)
    (cnt : Nat) (lvl msg : String) (out : List (String × EntryVal))
    (hnd : (result.map Prod.fst).Nodup)
    (hmem : (code, EntryVal.coded cnt lvl msg) ∈ result)
    (hok : (compare_with_db device now W result db).1 = Except.ok out) :
    ((code, EntryVal.coded cnt (lvl ++ " !!!ATTENTION!!!") msg) ∈ out ↔
      (dbLookup db device code = none ∨
        ∃ prev, dbLookup db device code = some prev ∧ prev < now - W))
    ∧ ((code, EntryVal.coded cnt lvl msg) ∈ out ↔
      ¬(dbLookup db device code = none ∨
        ∃ prev, dbLookup db device code = some prev ∧ prev < now - W)) := by
  obtain ⟨dbf, hcl, -⟩ := compare_with_db_ok hok
  have hfst : out = result.map (annotateEntry device (now - W) db) :=
    compareLoop_ok_map (now - W) now result db out dbf hnd hcl
  subst hfst
  constructor
  · constructor
    · intro hin
      obtain ⟨e, hein, heq⟩ := List.mem_map.mp hin
      rcases annotateEntry_branches device (now - W) db e with ⟨hb, hcond⟩ | ⟨hb, hcond⟩
      · rw [hb] at heq
        obtain ⟨k, v⟩ := e
        cases v with
        | coded n l0 m0 =>
          simp only [markAttention, Prod.mk.injEq, EntryVal.coded.injEq] at heq
          obtain ⟨hk, -, -, -⟩ := heq
          subst hk
          exact hcond
        | raw n => simp [markAttention] at heq
      · rw [hb] at heq
        subst heq
        have hv := nodup_key_unique hnd hein hmem
        injection hv with h1 h2 h3
        exact absurd h2.symm (string_ne_append_mark lvl)
    · intro hcond
      rcases annotateEntry_branches device (now - W) db (code, EntryVal.coded cnt lvl msg)
        with ⟨hb, -⟩ | ⟨-, hnc⟩
      · refine List.mem_map.mpr ⟨_, hmem, ?_⟩
        rw [hb]
        rfl
      · exact absurd hcond hnc
  · constructor
    · intro hin
      obtain ⟨e, hein, heq⟩ := List.mem_map.mp hin
      rcases annotateEntry_branches device (now - W) db e with ⟨hb, hcond⟩ | ⟨hb, hcond⟩
      · rw [hb] at heq
        obtain ⟨k, v⟩ := e
        cases v with
        | coded n l0 m0 =>
          simp only [markAttention, Prod.mk.injEq, EntryVal.coded.injEq] at heq
          obtain ⟨hk, hn, hl, hm⟩ := heq
          subst hk; subst hn; subst hm
          have hv := nodup_key_unique hnd hein hmem
          injection hv with h1 h2 h3
          subst h2
          exact absurd hl (string_ne_append_mark l0).symm
        | raw n => simp [markAttention] at heq
      · rw [hb] at heq
        subst heq
        exact hcond
    · intro hncond
      rcases annotateEntry_branches device (now - W) db (code, EntryVal.coded cnt lvl msg)
        with ⟨-, hc⟩ | ⟨hb, -⟩
      · exact absurd hc hncond
      · exact List.mem_map.mpr ⟨_, hmem, hb⟩

/-- Witness for `c1_attention_flag` at a concrete first-ever sighting. -/
theorem c1_attention_flag_witness :
    ("%A-1-B", EntryVal.coded 2 ("lv" ++ " !!!ATTENTION!!!") "ms") ∈
      [("%A-1-B", EntryVal.coded 2 ("lv" ++ " !!!ATTENTION!!!") "ms")] :=
  ((c1_attention_flag "d" 10 7 [("%A-1-B", EntryVal.coded 2 "lv" "ms")] dbEmpty
      "%A-1-B" 2 "lv" "ms"
      [("%A-1-B", EntryVal.coded 2 ("lv" ++ " !!!ATTENTION!!!") "ms")]
      (by decide) (by decide) (by rfl)).1).mpr (Or.inl rfl)

/-- C2: the claim states the intended always-refresh contract; the code
breaks it.  On a result containing an unparsed raw identity that is new (or
stale), the attention branch renames a dict key during `for code in result:`;
CPython raises `RuntimeError`, the sqlite context manager rolls back every
`INSERT OR REPLACE` of the pass, and the run aborts — the processed identity
ends with no stored `last_active` at all, not `now`.  This theorem evaluates
the model at that failing input. -/
theorem c2_failing_eval :
    (compare_with_db "dev" 10 7 [("plain", EntryVal.raw 1)] dbEmpty).1
        = Except.error PyErr.runtimeError
    ∧ dbLookup (compare_with_db "dev" 10 7 [("plain", EntryVal.raw 1)] dbEmpty).2
        "dev" "plain" = none :=
  ⟨rfl, rfl⟩

/-- Counterexample to C3 as stated: an unparsed raw-line identity whose
prior record lies within the window IS looked up and recorded by the novelty
pass — the pass completes and the stored timestamp is refreshed from 9 to
`now = 10`, contradicting "does not look that identity up ... does not
record it into the store". -/
theorem c3_counterexample :
    (compare_with_db "dev" 10 7 [("plain", EntryVal.raw 1)]
        (dbRecord dbEmpty "dev" "plain" 9)).1
      = Except.ok [("plain", EntryVal.raw 1)]
    ∧ dbLookup (compare_with_db "dev" 10 7 [("plain", EntryVal.raw 1)]
        (dbRecord dbEmpty "dev" "plain" 9)).2 "dev" "plain" = some 10 :=
  ⟨rfl, rfl⟩

/-- C3 (amended): unparsed raw-line identities are looked up and recorded
like codes.  One whose prior timestamp lies within the window is refreshed
to `now` and passes through unchanged; one that is new or stale takes the
attention branch, whose dict-key rename inside the iteration raises
`RuntimeError` — the transaction is rolled back (nothing recorded, the store
is left as it was) and the run aborts. -/
theorem c3_raw_entries (device : String) (now W : Nat)
    (result : List (String × EntryVal)) (db : Db) (key : String) (cnt : Nat)
    (hnd : (result.map Prod.fst).Nodup)
    (hmem : (key, EntryVal.raw cnt) ∈ result) :
    (∀ out, (compare_with_db device now W result db).1 = Except.ok out →
      ¬(dbLookup db device key = none ∨
          ∃ prev, dbLookup db device key = some prev ∧ prev < now - W)
      ∧ (key, EntryVal.raw cnt) ∈ out
      ∧ dbLookup (compare_with_db device now W result db).2 device key = some now)
    ∧ ((dbLookup db device key = none ∨
          ∃ prev, dbLookup db device key = some prev ∧ prev < now - W) →
        (compare_with_db device now W result db).1 = Except.error PyErr.runtimeError
        ∧ (compare_with_db device now W result db).2 = db) := by
  constructor
  · intro out hok
    obtain ⟨dbf, hcl, hdbf⟩ := compare_with_db_ok hok
    have hncond := compareLoop_ok_no_raw_cond (now - W) now result db out dbf
      key cnt hnd hcl hmem
    refine ⟨hncond, ?_, ?_⟩
    · have hout := compareLoop_ok_map (now - W) now result db out dbf hnd hcl
      subst hout
      rcases annotateEntry_branches device (now - W) db (key, EntryVal.raw cnt)
        with ⟨-, hc⟩ | ⟨hb, -⟩
      · exact absurd hc hncond
      · exact List.mem_map.mpr ⟨_, hmem, hb⟩
    · rw [hdbf]
      exact compareLoop_records (now - W) now result db out dbf key hcl
        (List.mem_map_of_mem Prod.fst hmem)
  · intro hcond
    cases hc : compareLoop device (now - W) now result db with
    | ok p =>
      obtain ⟨res, dbf⟩ := p
      exact absurd hcond
        (compareLoop_ok_no_raw_cond (now - W) now result db res dbf key cnt hnd hc hmem)
    | error e =>
      have he := compareLoop_error_shape result db e hc
      subst he
      constructor
      · unfold compare_with_db
        rw [hc]
      · unfold compare_with_db
        rw [hc]

/-- Witness for `c3_raw_entries`: a recently seen raw identity is refreshed
and kept, a never-seen one crashes the pass with the store untouched. -/
theorem c3_raw_entries_witness :
    (("plain", EntryVal.raw 1) ∈ [("plain", EntryVal.raw 1)]
      ∧ dbLookup (compare_with_db "dev" 10 7 [("plain", EntryVal.raw 1)]
          (dbRecord dbEmpty "dev" "plain" 9)).2 "dev" "plain" = some 10)
    ∧ (compare_with_db "dev" 10 7 [("plain", EntryVal.raw 1)] dbEmpty).1
        = Except.error PyErr.runtimeError := by
  constructor
  · have h := (c3_raw_entries "dev" 10 7 [("plain", EntryVal.raw 1)]
        (dbRecord dbEmpty "dev" "plain" 9) "plain" 1 (by decide) (by decide)).1
        [("plain", EntryVal.raw 1)] (by rfl)
    exact ⟨h.2.1, h.2.2⟩
  · exact ((c3_raw_entries "dev" 10 7 [("plain", EntryVal.raw 1)] dbEmpty
        "plain" 1 (by decide) (by decide)).2 (Or.inl rfl)).1

/-- C4: aggregation yields one entry per distinct identity; its count is
the number of occurrences of that identity in the file, and its level and
message are those captured at the first occurrence only. -/
theorem c4_aggregation (lines : List String) (k : String) :
    ((parseLines lines).map Prod.fst).Nodup
    ∧ (parseLines lines).lookup k =
        (match lines.find? (fun l => lineKey l == k) with
         | none => none
         | some l => some (mkEntry l (lines.countP fun l2 => lineKey l2 == k))) := by
  constructor
  · exact parse_fold_nodup lines [] (by simp)
  · exact (parse_fold_lookup lines [] k).trans rfl

/-- C5: classification is total (`classify` is a Lean function); every
match yields a code of the shape `%\w+-\d-\w+`, and every non-matching line
is aggregated under its verbatim text as identity. -/
theorem c5_classifier_total (line : String) :
    (∀ m : LineMatch, classify line = some m → codePat m.code.data = true)
    ∧ (classify line = none → parseLines [line] = [(line, EntryVal.raw 1)]) := by
  constructor
  · intro m hm
    exact classify_code_shape hm
  · intro h
    show addLine [] line = _
    unfold addLine dictAdd
    rw [h]
    simp [List.lookup]

/-- Witness for `c5_classifier_total` on a matching and a non-matching line. -/
theorem c5_classifier_total_witness :
    classify "A B c.d x %E-3-F: msg" = some ⟨"%E-3-F", "c.d", "msg"⟩
    ∧ codePat (String.data "%E-3-F") = true
    ∧ classify "plain" = none
    ∧ parseLines ["plain"] = [("plain", EntryVal.raw 1)] := by
  refine ⟨by rfl, ?_, by rfl, ?_⟩
  · exact (c5_classifier_total "A B c.d x %E-3-F: msg").1 ⟨"%E-3-F", "c.d", "msg"⟩ (by rfl)
  · exact (c5_classifier_total "plain").2 (by rfl)

/-- On a missing log file `parse_log` fails at `open` and hands back the
input store untouched. -/
theorem parse_log_missing (fs : Fs) (excSrc : ExcSource) (db : Db)
    (device temp : String) (now W : Nat) (h : fs temp = none) :
    parse_log fs excSrc db device temp now W
      = (Except.error PyErr.fileNotFound, db) := by
  unfold parse_log
  rw [h]

/-- C10: when the device's log file is missing, `parse_log` fails with
`FileNotFoundError` raised at `open`, before any history lookup or record:
the store it returns is the input store, unchanged. -/
theorem c10_no_store_side_effect (fs : Fs) (excSrc : ExcSource) (db : Db)
    (device temp : String) (now W : Nat) (h : fs temp = none) :
    parse_log fs excSrc db device temp now W
      = (Except.error PyErr.fileNotFound, db) :=
  parse_log_missing fs excSrc db device temp now W h

/-- Witness for `c10_no_store_side_effect`. -/
theorem c10_no_store_side_effect_witness :
    parse_log fsNone (ExcSource.value (YamlVal.strings [])) dbEmpty "d" "p" 10 7
      = (Except.error PyErr.fileNotFound, dbEmpty) :=
  c10_no_store_side_effect fsNone _ dbEmpty "d" "p" 10 7 rfl

/-- C6: a device whose log file is missing contributes the "logfile not
found" notice, and the loop carries on with the remaining devices on the
unchanged store instead of aborting. -/
theorem c6_missing_log (fs : Fs) (excSrc : ExcSource) (now W : Nat)
    (d : Device) (rest : List Device) (db : Db)
    (h : fs d.path = none) :
    format_log fs excSrc now W (d :: rest) db
      = (format_log fs excSrc now W rest db).map
          (fun p => (Chunk.unavailable d :: p.1, p.2)) := by
  have hp := parse_log_missing fs excSrc db d.name d.path now W h
  show (match parse_log fs excSrc db d.name d.path now W with
        | (.error .fileNotFound, db1) =>
          (format_log fs excSrc now W rest db1).map fun p =>
            (Chunk.unavailable d :: p.1, p.2)
        | (.error .yamlError, _) => .error .yamlError
        | (.error .runtimeError, _) => .error .runtimeError
        | (.ok res, db1) =>
          (format_log fs excSrc now W rest db1).map fun p =>
            (Chunk.table d (assembleRows res) :: p.1, p.2))
      = (format_log fs excSrc now W rest db).map
          (fun p => (Chunk.unavailable d :: p.1, p.2))
  rw [hp]

/-- Witness for `c6_missing_log`: the first device's log is missing, the
second is still processed. -/
theorem c6_missing_log_witness :
    format_log fsOnly1 (ExcSource.value (YamlVal.strings [])) 10 7 [dev0, dev1] dbEmpty
      = (format_log fsOnly1 (ExcSource.value (YamlVal.strings [])) 10 7 [dev1] dbEmpty).map
          (fun p => (Chunk.unavailable dev0 :: p.1, p.2)) :=
  c6_missing_log fsOnly1 _ 10 7 dev0 [dev1] dbEmpty (by decide)

theorem exceptionApply_nil (r : List (String × EntryVal)) :
    exceptionApply [] r = r := by
  unfold exceptionApply
  induction r with
  | nil => rfl
  | cons e t ih => simp [List.filter_cons, ih]

/-- Counterexample to C7 as stated: with the exceptions file missing the
run does keep going, but the device's rows are NOT produced — its chunk is
the "logfile not found" notice even though its log was read fine; and with
an unparsable exceptions file the run aborts. -/
theorem c7_counterexample :
    (format_log fsEmptyLogs ExcSource.missing 10 7 [dev0] dbEmpty).toOption.map
        Prod.fst = some [Chunk.unavailable dev0]
    ∧ format_log fsEmptyLogs ExcSource.unparsable 10 7 [dev0] dbEmpty
        = Except.error PyErr.yamlError :=
  ⟨rfl, rfl⟩

/-- Helper: a pair whose first component is known. -/
theorem pair_eq_of_fst {α β : Type} {p : α × β} {a : α} (h : p.1 = a) :
    p = (a, p.2) := by
  rw [← h]

/-- C7 (amended): only malformed exception *data* (a non-container value)
degrades to "no exceptions suppressed" — the device's result is then the one
an empty exception set would give.  Provided the device's novelty pass
itself completes, a missing exceptions file instead trips the per-device
`FileNotFoundError` handler — the run continues but the device's rows are
replaced by the "log unavailable" notice, with the pass's store mutations
already committed — and an unparsable exceptions file aborts the whole run.
When the pass does not complete, its `RuntimeError` propagates first, before
the exceptions file is ever opened, and aborts the run with the transaction
rolled back. -/
theorem c7_exception_load_degrade :
    (∀ (fs : Fs) (db : Db) (device temp : String) (now W : Nat),
        parse_log fs (ExcSource.value YamlVal.scalar) db device temp now W
          = parse_log fs (ExcSource.value (YamlVal.strings [])) db device temp now W)
    ∧ (∀ (fs : Fs) (now W : Nat) (d : Device) (rest : List Device) (db : Db)
          (lines : List String) (compared : List (String × EntryVal)),
        fs d.path = some lines →
        (compare_with_db d.name now W (parseLines lines) db).1 = Except.ok compared →
        format_log fs ExcSource.missing now W (d :: rest) db
          = (format_log fs ExcSource.missing now W rest
                (compare_with_db d.name now W (parseLines lines) db).2).map
              (fun p => (Chunk.unavailable d :: p.1, p.2)))
    ∧ (∀ (fs : Fs) (now W : Nat) (d : Device) (rest : List Device) (db : Db)
          (lines : List String) (compared : List (String × EntryVal)),
        fs d.path = some lines →
        (compare_with_db d.name now W (parseLines lines) db).1 = Except.ok compared →
        format_log fs ExcSource.unparsable now W (d :: rest) db
          = Except.error PyErr.yamlError)
    ∧ (∀ (fs : Fs) (excSrc : ExcSource) (now W : Nat) (d : Device)
          (rest : List Device) (db : Db) (lines : List String),
        fs d.path = some lines →
        (compare_with_db d.name now W (parseLines lines) db).1
            = Except.error PyErr.runtimeError →
        format_log fs excSrc now W (d :: rest) db
          = Except.error PyErr.runtimeError) := by
  refine ⟨?_, ?_, ?_, ?_⟩
  · intro fs db device temp now W
    have haux : ∀ r, exceptionRun (ExcSource.value YamlVal.scalar) r
        = exceptionRun (ExcSource.value (YamlVal.strings [])) r := by
      intro r
      simp [exceptionRun, exceptionApply_nil]
    unfold parse_log
    simp only [haux]
  · intro fs now W d rest db lines compared h hok
    have hp : parse_log fs ExcSource.missing db d.name d.path now W
        = (Except.error PyErr.fileNotFound,
            (compare_with_db d.name now W (parseLines lines) db).2) := by
      unfold parse_log
      rw [h]
      simp only []
      rw [pair_eq_of_fst hok]
      rfl
    show (match parse_log fs ExcSource.missing db d.name d.path now W with
          | (.error .fileNotFound, db1) =>
            (format_log fs ExcSource.missing now W rest db1).map
              fun (p : List Chunk × Db) => (Chunk.unavailable d :: p.1, p.2)
          | (.error .yamlError, _) => .error .yamlError
          | (.error .runtimeError, _) => .error .runtimeError
          | (.ok res, db1) =>
            (format_log fs ExcSource.missing now W rest db1).map
              fun (p : List Chunk × Db) => (Chunk.table d (assembleRows res) :: p.1, p.2))
        = _
    rw [hp]
  · intro fs now W d rest db lines compared h hok
    have hp : parse_log fs ExcSource.unparsable db d.name d.path now W
        = (Except.error PyErr.yamlError,
            (compare_with_db d.name now W (parseLines lines) db).2) := by
      unfold parse_log
      rw [h]
      simp only []
      rw [pair_eq_of_fst hok]
      rfl
    show (match parse_log fs ExcSource.unparsable db d.name d.path now W with
          | (.error .fileNotFound, db1) =>
            (format_log fs ExcSource.unparsable now W rest db1).map
              fun (p : List Chunk × Db) => (Chunk.unavailable d :: p.1, p.2)
          | (.error .yamlError, _) => .error .yamlError
          | (.error .runtimeError, _) => .error .runtimeError
          | (.ok res, db1) =>
            (format_log fs ExcSource.unparsable now W rest db1).map
              fun (p : List Chunk × Db) => (Chunk.table d (assembleRows res) :: p.1, p.2))
        = _
    rw [hp]
  · intro fs excSrc now W d rest db lines h herr
    have hp : parse_log fs excSrc db d.name d.path now W
        = (Except.error PyErr.runtimeError,
            (compare_with_db d.name now W (parseLines lines) db).2) := by
      unfold parse_log
      rw [h]
      simp only []
      rw [pair_eq_of_fst herr]
    show (match parse_log fs excSrc db d.name d.path now W with
          | (.error .fileNotFound, db1) =>
            (format_log fs excSrc now W rest db1).map
              fun (p : List Chunk × Db) => (Chunk.unavailable d :: p.1, p.2)
          | (.error .yamlError, _) => .error .yamlError
          | (.error .runtimeError, _) => .error .runtimeError
          | (.ok res, db1) =>
            (format_log fs excSrc now W rest db1).map
              fun (p : List Chunk × Db) => (Chunk.table d (assembleRows res) :: p.1, p.2))
        = _
    rw [hp]

/-- Witness for `c7_exception_load_degrade` at concrete inputs: an empty log
(whose pass completes) for the first three parts, a novel raw line (whose
pass crashes) for the last. -/
theorem c7_exception_load_degrade_witness :
    parse_log fsEmptyLogs (ExcSource.value YamlVal.scalar) dbEmpty "d" "p" 10 7
      = parse_log fsEmptyLogs (ExcSource.value (YamlVal.strings [])) dbEmpty "d" "p" 10 7
    ∧ format_log fsEmptyLogs ExcSource.missing 10 7 [dev0] dbEmpty
        = (format_log fsEmptyLogs ExcSource.missing 10 7 []
              (compare_with_db dev0.name 10 7 (parseLines []) dbEmpty).2).map
            (fun p => (Chunk.unavailable dev0 :: p.1, p.2))
    ∧ format_log fsEmptyLogs ExcSource.unparsable 10 7 [dev0] dbEmpty
        = Except.error PyErr.yamlError
    ∧ format_log fsPlain ExcSource.missing 10 7 [dev0] dbEmpty
        = Except.error PyErr.runtimeError :=
  ⟨c7_exception_load_degrade.1 fsEmptyLogs dbEmpty "d" "p" 10 7,
   c7_exception_load_degrade.2.1 fsEmptyLogs 10 7 dev0 [] dbEmpty [] [] rfl rfl,
   c7_exception_load_degrade.2.2.1 fsEmptyLogs 10 7 dev0 [] dbEmpty [] [] rfl rfl,
   c7_exception_load_degrade.2.2.2 fsPlain ExcSource.missing 10 7 dev0 [] dbEmpty
     ["plain"] rfl rfl⟩

/-- C8: every code in the configured exception set is absent from the
device's final result, whatever its attention outcome was; matching is
exact-string, and malformed (non-container) exception data never makes the
removal step fail — it removes nothing and returns the result intact. -/
theorem c8_exceptions_absent :
    (∀ (fs : Fs) (exc : List String) (db : Db) (device temp : String)
        (now W : Nat) (code : String) (res : List (String × EntryVal)),
        code ∈ exc →
        (parse_log fs (ExcSource.value (YamlVal.strings exc)) db device temp now W).1
          = Except.ok res →
        ∀ e ∈ res, e.1 ≠ code)
    ∧ ∀ result, exceptionRun (ExcSource.value YamlVal.scalar) result
        = Except.ok result := by
  constructor
  · intro fs exc db device temp now W code res hcode hok e he
    unfold parse_log at hok
    cases hf : fs temp with
    | none =>
      rw [hf] at hok
      simp at hok
    | some lines =>
      rw [hf] at hok
      simp only [] at hok
      rcases hcomp : compare_with_db device now W (parseLines lines) db with ⟨exres, db1⟩
      rw [hcomp] at hok
      cases exres with
      | error e2 => simp at hok
      | ok compared =>
        simp only [exceptionRun] at hok
        have hres : exceptionApply exc compared = res := by
          simpa using hok
        subst hres
        have hkeep := (List.mem_filter.mp he).2
        intro heq
        rw [heq] at hkeep
        have hc : exc.contains code = true := List.elem_iff.mpr hcode
        rw [hc] at hkeep
        simp at hkeep
  · intro result
    rfl

/-- Witness for `c8_exceptions_absent`: the device's log holds two coded
lines, one of whose codes is suppressed; the surviving entry's identity
differs from the suppressed code. -/
theorem c8_exceptions_absent_witness :
    ("%G-4-H", EntryVal.coded 1 ("c.d" ++ " !!!ATTENTION!!!") "msg2").1
      ≠ "%E-3-F" :=
  c8_exceptions_absent.1 fsTwoCoded ["%E-3-F"] dbEmpty "d" "p" 10 7 "%E-3-F"
    [("%G-4-H", EntryVal.coded 1 ("c.d" ++ " !!!ATTENTION!!!") "msg2")]
    (by decide) (by rfl)
    ("%G-4-H", EntryVal.coded 1 ("c.d" ++ " !!!ATTENTION!!!") "msg2") (by decide)

/-- C9: the assembled report rows are sorted descending by the natural
ordering of the full `(count, level, code, message)` tuple — count first,
then level, then code, then message as successive tie-breaks — and are a
permutation of the rows of the surviving entries. -/
theorem c9_report_order (res : List (String × EntryVal)) :
    List.Sorted rowGe (assembleRows res)
    ∧ (assembleRows res).Perm (res.map rowOf)
    ∧ ∀ a b : Row, rowGe a b ↔
        (b.1 < a.1 ∨ (b.1 = a.1 ∧ (b.2.1 < a.2.1 ∨ (b.2.1 = a.2.1 ∧
          (b.2.2.1 < a.2.2.1 ∨ (b.2.2.1 = a.2.2.1 ∧ b.2.2.2 ≤ a.2.2.2)))))) := by
  refine ⟨List.sorted_insertionSort rowGe _, List.perm_insertionSort rowGe _, ?_⟩
  intro a b
  unfold rowGe rowToLex
  rw [Prod.Lex.le_iff]
  simp only [Prod.Lex.le_iff]
